import Mathlib

/-!
# Verification of the Vehicle-Spawncode-Setter build tool

A shallow embedding of the two build scripts of the repository
(`build.mjs` and the second, unnamed script file), together with proofs
about the embedded operations:

* the Code Generator `autoIncrementSpawnCodes`,
* the File Renamer `renameVehicleFiles`,
* the Metadata Rewriter `updateMetaFiles`,
* the modification-kit fixup `fixModkits`,
* the Script Text Rewriter `updateUlcFile`,
* the top-level process driver (`loadYaml`, `main().catch`).

JavaScript objects that are used as string-keyed dictionaries
(`counters`, `spawnCodes`, the manifest's `vehicles` and `data` tables)
are modelled as association lists in iteration order; `Object.entries`
iteration corresponds to list order.  JavaScript template-literal
stringification of a counter value corresponds to `Nat.repr`.
-/

set_option autoImplicit false

namespace VSS

/-! ## Decimal representation groundwork

`Nat.repr` is defined via the fuel-based `Nat.toDigitsCore`.  We give a
fuel-free recursive description `decRepr` and prove it injective; this
backs every uniqueness statement about generated spawn codes.
-/

/-- Fuel-free big-endian decimal digit list of a natural number. -/
def decRepr (n : Nat) : List Char :=
  if h : n < 10 then [Nat.digitChar n]
  else decRepr (n / 10) ++ [Nat.digitChar (n % 10)]
termination_by n
decreasing_by
  exact Nat.div_lt_self (Nat.lt_of_lt_of_le (by decide) (Nat.le_of_not_lt h)) (by decide)

/-! ## Code Generator (`autoIncrementSpawnCodes`, identical in both scripts)

```js
const counters = {};
const spawnCodes = {};
for (const [vehicle, { code }] of Object.entries(vehicleEntries)) {
  const base = code.replace(/#$/, "");
  if (!counters[base]) counters[base] = 1;
  spawnCodes[vehicle] = `${base}${counters[base]}`;
  counters[base]++;
}
```

The manifest's `vehicles` table is a list of
(vehicle identifier, code prefix) pairs in iteration order; `counters` is
an association list (`counters[base]` unset ↦ `List.lookup` misses; the
counter is never 0, so the JS falsiness test is exactly the unset test).
-/

/-- `code.replace(/#$/, "")`: strip one trailing `#` placeholder marker
(the anchored, non-global regex removes exactly the final character when
it is `#`), giving the base group key. -/
def stripHash (code : String) : String :=
  match code.data.getLast? with
  | some '#' => ⟨code.data.dropLast⟩
  | _ => code

/-- The loop body of `autoIncrementSpawnCodes`, with the `counters` object
made explicit. -/
def aiscAux : List (String × Nat) → List (String × String) → List (String × String)
  | _, [] => []
  | counters, (vehicle, code) :: rest =>
    let base := stripHash code
    let c := (counters.lookup base).getD 1
    (vehicle, base ++ Nat.repr c) :: aiscAux ((base, c + 1) :: counters) rest

/-- The Code Generator: vehicle identifier ↦ generated spawn code, in
manifest iteration order. -/
def autoIncrementSpawnCodes (vehicleEntries : List (String × String)) :
    List (String × String) :=
  aiscAux [] vehicleEntries

/-- How many manifest entries fall in the base group `b`. -/
def countBase (b : String) (ve : List (String × String)) : Nat :=
  (ve.filter (fun q => stripHash q.2 == b)).length

/-- The generated codes of the manifest entries whose base group key is
`b`, in manifest iteration order. -/
def groupCodes (b : String) (ve : List (String × String)) : List String :=
  ((ve.zip (autoIncrementSpawnCodes ve)).filter
    (fun q => stripHash q.1.2 == b)).map (fun q => q.2.2)

/-- All generated codes, in manifest iteration order. -/
def allCodes (ve : List (String × String)) : List String :=
  (autoIncrementSpawnCodes ve).map (fun q => q.2)

/-- The base group keys a manifest mentions. -/
def allBases (ve : List (String × String)) : List String :=
  ve.map (fun q => stripHash q.2)

/-- No base group key of the manifest is a proper starting segment of
another (`b₂.take b₁.length = b₁` only when `b₁ = b₂`). -/
def basesSeparated (ve : List (String × String)) : Prop :=
  ∀ b₁ ∈ allBases ve, ∀ b₂ ∈ allBases ve,
    b₂.data.take b₁.data.length = b₁.data → b₁ = b₂

instance (ve : List (String × String)) : Decidable (basesSeparated ve) := by
  unfold basesSeparated
  infer_instance

/-! ## File Renamer (`renameVehicleFiles`, identical in both scripts)

The stream folder is modelled as the (duplicate-free) set of file names it
contains, relative to the folder (`path.join(streamFolder, name)` adds a
fixed common prefix to every name and is dropped).  `fs.renameSync`
removes the old name and makes the new name exist (silently overwriting);
the guard is `fs.existsSync(oldFileName)`, a missing source file is a
logged skip.  Alongside the new file set we count the renames performed.
-/

/-- The four recognized suffix patterns:
`[".yft", ".ytd", "_hi.yft", "+hi.ytd"]`. -/
def patterns : List String := [".yft", ".ytd", "_hi.yft", "+hi.ytd"]

/-- One guarded `fs.renameSync(oldFileName, newFileName)` attempt. -/
def renameStep (fs : List String) (oldN newN : String) : List String × Nat :=
  if oldN ∈ fs then (List.insert newN (fs.erase oldN), 1) else (fs, 0)

/-- The inner `patterns.forEach` loop for one (vehicle, spawnCode) pair. -/
def renamePats (v c : String) : List String → List String → List String × Nat
  | [], fs => (fs, 0)
  | e :: pats, fs =>
    let st₁ := renameStep fs (v ++ e) (c ++ e)
    let st₂ := renamePats v c pats st₁.1
    (st₂.1, st₁.2 + st₂.2)

/-- `renameVehicleFiles`: the outer loop over the Spawn Code Mapping in
mapping order. -/
def renameVehicleFiles (spawnCodes : List (String × String)) (fs : List String) :
    List String × Nat :=
  match spawnCodes with
  | [] => (fs, 0)
  | (vehicle, spawnCode) :: rest =>
    let st₁ := renamePats vehicle spawnCode patterns fs
    let st₂ := renameVehicleFiles rest st₁.1
    (st₂.1, st₁.2 + st₂.2)

/-! ## Metadata Rewriter (`updateMetaFiles`)

xml2js wraps every child element in a singleton array
(`item.modelName[0]`); we model the `[0]` element directly.  A document's
nested access chain (`CVehicleModelInfo__InitDataList.InitDatas[0].Item`,
`CVehicleModelInfoVariation.variationData[0].Item`) either resolves to an
item list or fails with a thrown TypeError when an expected nested field
is absent; the resolution is modelled as an `Option`, and thrown errors as
`Except.error` / an `Option String` error component.
-/

/-- A `data:` template of the manifest: `{ handling, audio }`. -/
structure TemplateData where
  handling : String
  audio : String
deriving DecidableEq

/-- A `vehicles:` entry of the manifest: `{ code, data }`. -/
structure VehicleEntry where
  code : String
  data : String
deriving DecidableEq

/-- The manifest (`build.yaml`): `data` and `vehicles` tables in iteration
order. -/
structure Manifest where
  data : List (String × TemplateData)
  vehicles : List (String × VehicleEntry)
deriving DecidableEq

/-- The vehicles table as consumed by `autoIncrementSpawnCodes`, which
destructures only `{ code }` from each entry. -/
def vehCodes (m : Manifest) : List (String × String) :=
  m.vehicles.map (fun q => (q.1, q.2.code))

/-- The vehicles table as consumed by `updateMetaFiles`, which reads only
`buildData[originalModelName].data` from each entry. -/
def vehDataRefs (m : Manifest) : List (String × String) :=
  m.vehicles.map (fun q => (q.1, q.2.data))

/-- A vehicles.meta `<Item>`: the five fields the rewriter touches. -/
structure VehItem where
  modelName : String
  txdName : String
  gameName : String
  handlingId : String
  audioNameHash : String
deriving DecidableEq

/-- A carvariations.meta `<Item>`: only `modelName` is touched. -/
structure VarItem where
  modelName : String
deriving DecidableEq

/-- JS `String.prototype.toLowerCase()` on the identifiers at hand
(`Char.toLower` lowers the ASCII range A–Z, which is what the vehicle
identifiers use). -/
def jsToLower (s : String) : String :=
  ⟨s.data.map Char.toLower⟩

/-- The vehicles.meta per-item callback of the current (unnamed) script:

```js
const originalModelName = item.modelName[0].toLowerCase();
const spawnCode = spawnCodes[originalModelName];
if (spawnCode) {
  const dataRef = buildData[originalModelName].data;
  item.modelName[0] = spawnCode; item.txdName[0] = spawnCode;
  item.gameName[0] = spawnCode;
  item.handlingId[0] = vehicleData[dataRef].handling;
  item.audioNameHash[0] = vehicleData[dataRef].audio;
}
```

`if (spawnCode)` is false for `undefined` (lookup miss) and for the empty
string; a failing `buildData`/`vehicleData` lookup makes the subsequent
field access throw. -/
def rewriteVehItem (spawnCodes : List (String × String))
    (vehicleData : List (String × TemplateData))
    (buildData : List (String × String)) (item : VehItem) : Except String VehItem :=
  let originalModelName := jsToLower item.modelName
  match spawnCodes.lookup originalModelName with
  | none => .ok item
  | some spawnCode =>
    if spawnCode = "" then .ok item
    else
      match buildData.lookup originalModelName with
      | none => .error "TypeError: buildData[originalModelName] is undefined"
      | some dataRef =>
        match vehicleData.lookup dataRef with
        | none => .error "TypeError: vehicleData[dataRef] is undefined"
        | some td => .ok ⟨spawnCode, spawnCode, spawnCode, td.handling, td.audio⟩

/-- The carvariations.meta per-item callback of the current script
(`modelName[0].toLowerCase()` lookup, only `modelName` rewritten). -/
def rewriteVarItem (spawnCodes : List (String × String)) (item : VarItem) : VarItem :=
  match spawnCodes.lookup (jsToLower item.modelName) with
  | none => item
  | some spawnCode => if spawnCode = "" then item else ⟨spawnCode⟩

/-- The vehicles.meta per-item callback of `build.mjs`, which looks the
identifier up as written (`const originalModelName = item.modelName[0];`,
no `toLowerCase()`). -/
def rewriteVehItemMjs (spawnCodes : List (String × String))
    (vehicleData : List (String × TemplateData))
    (buildData : List (String × String)) (item : VehItem) : Except String VehItem :=
  match spawnCodes.lookup item.modelName with
  | none => .ok item
  | some spawnCode =>
    if spawnCode = "" then .ok item
    else
      match buildData.lookup item.modelName with
      | none => .error "TypeError: buildData[originalModelName] is undefined"
      | some dataRef =>
        match vehicleData.lookup dataRef with
        | none => .error "TypeError: vehicleData[dataRef] is undefined"
        | some td => .ok ⟨spawnCode, spawnCode, spawnCode, td.handling, td.audio⟩

/-- The carvariations.meta per-item callback of `build.mjs` (exact-case
lookup). -/
def rewriteVarItemMjs (spawnCodes : List (String × String)) (item : VarItem) :
    VarItem :=
  match spawnCodes.lookup item.modelName with
  | none => item
  | some spawnCode => if spawnCode = "" then item else ⟨spawnCode⟩

/-- A parsed vehicles.meta file as collected by `findMetaFiles`: its path
and the resolution of the nested item-list access chain (`none` = a
structural mismatch, the access throws). -/
structure VehDoc where
  path : String
  items : Option (List VehItem)
deriving DecidableEq

/-- A parsed carvariations.meta file. -/
structure VarDoc where
  path : String
  items : Option (List VarItem)
deriving DecidableEq

/-- The `vehiclesArray.forEach` loop of `updateMetaFiles`: each document
is rewritten and written back in order; a thrown TypeError (structural
mismatch, or a failed manifest lookup on a matched item) aborts the loop —
documents already written stay written, later documents are not processed.
Returns the written documents and the uncaught error, if any. -/
def updateVehDocs (spawnCodes : List (String × String))
    (vehicleData : List (String × TemplateData))
    (buildData : List (String × String)) :
    List VehDoc → List VehDoc × Option String
  | [] => ([], none)
  | d :: rest =>
    match d.items with
    | none => ([], some "TypeError: structural mismatch in vehicles.meta")
    | some items =>
      match items.mapM (rewriteVehItem spawnCodes vehicleData buildData) with
      | .error e => ([], some e)
      | .ok items' =>
        let st := updateVehDocs spawnCodes vehicleData buildData rest
        (⟨d.path, some items'⟩ :: st.1, st.2)

/-- The `carvarArray.forEach` loop of `updateMetaFiles`. -/
def updateVarDocs (spawnCodes : List (String × String)) :
    List VarDoc → List VarDoc × Option String
  | [] => ([], none)
  | d :: rest =>
    match d.items with
    | none => ([], some "TypeError: structural mismatch in carvariations.meta")
    | some items =>
      let st := updateVarDocs spawnCodes rest
      (⟨d.path, some (items.map (rewriteVarItem spawnCodes))⟩ :: st.1, st.2)

/-- `updateMetaFiles` of the current script: all vehicles.meta documents,
then all carvariations.meta documents; an error thrown while processing
the former prevents any processing of the latter.  Result: written
vehicles.meta documents, written carvariations.meta documents, and the
propagated uncaught error, if any. -/
def updateMetaFiles (vehiclesArray : List VehDoc) (carvarArray : List VarDoc)
    (spawnCodes : List (String × String))
    (vehicleData : List (String × TemplateData))
    (buildData : List (String × String)) :
    List VehDoc × List VarDoc × Option String :=
  let st₁ := updateVehDocs spawnCodes vehicleData buildData vehiclesArray
  match st₁.2 with
  | some err => (st₁.1, [], some err)
  | none =>
    let st₂ := updateVarDocs spawnCodes carvarArray
    (st₁.1, st₂.1, st₂.2)

/-! ## Modification-kit fixup (`fixModkits`, current script only)

Per carcols.meta document: the kit loop runs inside `try { ... } catch`
(the error is logged and swallowed), then the document — including any
mutations made before a caught error — is unconditionally serialized and
written back.  `(prefix || "") + value` equals `prefix ++ value` for every
string `prefix` (when `prefix` is the empty string both sides prepend
nothing).
-/

/-- A kit `<Item>`: the `item.kitName != null && item.id != null` guard
checks field presence, and a present `id` may still be malformed —
`item.id[0]["$"].value` throws when the array is empty or the attribute
object is missing. -/
inductive IdField
  | absent
  | malformed
  | value (v : String)
deriving DecidableEq

/-- A kit item: `kitName` presence (content unused) and its `id`. -/
structure KitItem where
  kitName : Option String
  id : IdField
deriving DecidableEq

/-- A `<Kits>` entry; `kit.Item?.forEach` skips a kit with no item list. -/
structure Kit where
  items : Option (List KitItem)
deriving DecidableEq

/-- A parsed carcols.meta file;
`carcolData?.CVehicleModelInfoVarGlobal?.Kits` resolves to the kit list or
is skipped by optional chaining. -/
structure CarcolDoc where
  path : String
  kits : Option (List Kit)
deriving DecidableEq

/-- The `kit.Item?.forEach` body: guarded prefixing of `id`; the Bool
reports a thrown TypeError, which leaves the throwing item and everything
after it untouched. -/
def fixItems (pfx : String) : List KitItem → List KitItem × Bool
  | [] => ([], false)
  | item :: rest =>
    match item.kitName, item.id with
    | some _, IdField.value v =>
      let st := fixItems pfx rest
      ({ item with id := IdField.value (pfx ++ v) } :: st.1, st.2)
    | some _, IdField.malformed => (item :: rest, true)
    | _, _ =>
      let st := fixItems pfx rest
      (item :: st.1, st.2)

/-- The `Kits?.forEach` loop: a throw inside one kit's item loop aborts
the remaining kits too (the exception propagates to the per-document
catch). -/
def fixKits (pfx : String) : List Kit → List Kit × Bool
  | [] => ([], false)
  | kit :: rest =>
    match kit.items with
    | none =>
      let st := fixKits pfx rest
      (kit :: st.1, st.2)
    | some items =>
      let st₁ := fixItems pfx items
      if st₁.2 then (⟨some st₁.1⟩ :: rest, true)
      else
        let st₂ := fixKits pfx rest
        (⟨some st₁.1⟩ :: st₂.1, st₂.2)

/-- `fixModkits`: every document is processed (errors are caught
per-document) and unconditionally written back.  Returns the written
documents. -/
def fixModkits (carcolArray : List CarcolDoc) (pfx : String) : List CarcolDoc :=
  match carcolArray with
  | [] => []
  | d :: rest =>
    let kits' := match d.kits with
      | none => d.kits
      | some ks => some (fixKits pfx ks).1
    ⟨d.path, kits'⟩ :: fixModkits rest pfx

/-! ## Script Text Rewriter (`updateUlcFile`)

`String.prototype.replaceAll` with a string pattern: non-overlapping
leftmost replacement, scanning left to right, continuing after the
replacement text.  Modelled character-list-wise.
-/

/-- Is `pat` an initial run of `s`? -/
def startsWithL : List Char → List Char → Bool
  | _, [] => true
  | [], _ :: _ => false
  | a :: s, p :: ps => a == p && startsWithL s ps

/-- The scanning loop of `replaceAll`, structurally recursive on a fuel
bound; one unit of fuel is spent per examined position, so `s.length`
fuel always suffices. -/
def replaceAllFuel (pat rep : List Char) : Nat → List Char → List Char
  | 0, s => s
  | _, [] => []
  | fuel + 1, ch :: t =>
    if pat.isEmpty then ch :: t
    else if startsWithL (ch :: t) pat then
      rep ++ replaceAllFuel pat rep fuel ((ch :: t).drop pat.length)
    else ch :: replaceAllFuel pat rep fuel t

/-- JS `s.replaceAll(pat, rep)` for a nonempty string pattern:
non-overlapping leftmost replacement, continuing after the replacement
text (for an empty pattern this returns `s` unchanged; the rewriter's
patterns are quoted identifiers resp. manifest keys and never empty in a
run). -/
def replaceAllL (pat rep : List Char) (s : List Char) : List Char :=
  replaceAllFuel pat rep s.length s

/-- JS `s.replaceAll(pat, rep)` on `String`. -/
def jsReplaceAll (s pat rep : String) : String :=
  ⟨replaceAllL pat.data rep.data s.data⟩

/-- The identifier surrounded by double quotes. -/
def quoteStr (s : String) : String := "\"" ++ s ++ "\""

/-- `updateUlcFile` of the current script: for every mapping entry in
mapping order, `ulcContent.replaceAll(`"${originalModelName}"`,
`"${spawnCode}"`)` — the quoted form is replaced by the quoted new
code. -/
def updateUlcFile (spawnCodes : List (String × String)) (content : String) : String :=
  spawnCodes.foldl (fun acc q => jsReplaceAll acc (quoteStr q.1) (quoteStr q.2)) content

/-- `updateUlcFile` of `build.mjs`:
`ulcContent.replaceAll(originalModelName, spawnCode)` — the raw
identifier is replaced wherever it occurs. -/
def updateUlcFileMjs (spawnCodes : List (String × String)) (content : String) : String :=
  spawnCodes.foldl (fun acc q => jsReplaceAll acc q.1 q.2) content

/-! ## Top-level process driver (current script)

`main()` prompts, loads the manifest, computes the mapping, dispatches on
the choice, and logs "Processing completed successfully.";
`main().catch((err) => console.error(...))` handles any rejection, so the
process then exits normally (exit code 0) with the error logged.  Only
`loadYaml` calls `process.exit(1)`.  File reads/parses are the world's
data; the modelled source of an uncaught runtime failure is a structural
mismatch (or failed manifest lookup) inside `updateMetaFiles`.
-/

/-- The interactive menu of the current script. -/
inductive UpdateChoice
  | everything
  | onlySpawnCodes
  | onlyMetaFiles
  | onlyUlc
  | onlyModkits
deriving DecidableEq

/-- Everything the run reads from outside: the manifest load result and
the files the fixed relative paths hold. -/
structure World where
  buildYaml : Except String Manifest
  choice : UpdateChoice
  modkitPfx : String
  streamFiles : List String
  vehDocs : List VehDoc
  varDocs : List VarDoc
  carcolDocs : List CarcolDoc

/-- What the process run ends in. -/
structure ProcOutcome where
  exitCode : Nat
  errorLogged : Bool
  completionLogged : Bool
deriving DecidableEq

/-- `loadYaml`: an unreadable or unparseable manifest is caught, logged
and answered with `process.exit(1)`. -/
def loadYaml (raw : Except String Manifest) : Except Nat Manifest :=
  match raw with
  | .ok m => .ok m
  | .error _ => .error 1

/-- The dispatch of `main()` after the prompt: `none` when the chosen
steps run to completion, `some err` when a step throws.
`renameVehicleFiles`, `updateUlcFile` and `fixModkits` are total; only
`updateMetaFiles` propagates a thrown error. -/
def mainBody (w : World) (m : Manifest) : Option String :=
  let spawnCodes := autoIncrementSpawnCodes (vehCodes m)
  match w.choice with
  | .everything =>
    (updateMetaFiles w.vehDocs w.varDocs spawnCodes m.data (vehDataRefs m)).2.2
  | .onlySpawnCodes => none
  | .onlyMetaFiles =>
    (updateMetaFiles w.vehDocs w.varDocs spawnCodes m.data (vehDataRefs m)).2.2
  | .onlyUlc => none
  | .onlyModkits => none

/-- The whole process: `loadYaml`'s exit short-circuits everything;
otherwise `main()` either completes (completion message, exit 0) or
rejects, and the rejection is handled by
`main().catch((err) => console.error(...))` — logged, then a normal exit
(code 0). -/
def runProcess (w : World) : ProcOutcome :=
  match loadYaml w.buildYaml with
  | .error code => ⟨code, false, false⟩
  | .ok m =>
    match mainBody w m with
    | some _ => ⟨0, true, false⟩
    | none => ⟨0, false, true⟩

/-! ## Groundwork theorems -/

theorem decRepr_of_lt {n : Nat} (h : n < 10) : decRepr n = [Nat.digitChar n] := by
  rw [decRepr]; simp [h]

theorem decRepr_of_ge {n : Nat} (h : ¬ n < 10) :
    decRepr n = decRepr (n / 10) ++ [Nat.digitChar (n % 10)] := by
  rw [decRepr]; simp [h]

theorem decRepr_ne_nil (n : Nat) : decRepr n ≠ [] := by
  by_cases h : n < 10
  · rw [decRepr_of_lt h]; simp
  · rw [decRepr_of_ge h]; simp

/-- `Nat.toDigitsCore` with enough fuel computes `decRepr` (base 10). -/
theorem toDigitsCore_eq_decRepr (f : Nat) :
    ∀ n ds, n < 10 ^ (f + 1) →
      Nat.toDigitsCore 10 (f + 1) n ds = decRepr n ++ ds := by
  induction f with
  | zero =>
    intro n ds hn
    have h10 : n < 10 := by simpa using hn
    have hdiv : n / 10 = 0 := Nat.div_eq_of_lt h10
    simp [Nat.toDigitsCore, hdiv, decRepr_of_lt h10, Nat.mod_eq_of_lt h10]
  | succ f ih =>
    intro n ds hn
    by_cases h10 : n < 10
    · have hdiv : n / 10 = 0 := Nat.div_eq_of_lt h10
      simp [Nat.toDigitsCore, hdiv, decRepr_of_lt h10, Nat.mod_eq_of_lt h10]
    · have hdiv : ¬ n / 10 = 0 := by omega
      have hlt : n / 10 < 10 ^ (f + 1) := by
        have := Nat.div_lt_iff_lt_mul (k := 10) (x := n) (y := 10 ^ (f + 1)) (by decide)
        exact this.mpr (by simpa [Nat.pow_succ, Nat.mul_comm] using hn)
      have step : Nat.toDigitsCore 10 (f + 1 + 1) n ds
          = Nat.toDigitsCore 10 (f + 1) (n / 10) (Nat.digitChar (n % 10) :: ds) := by
        rw [Nat.toDigitsCore, if_neg hdiv]
      rw [step, ih (n / 10) _ hlt, decRepr_of_ge h10]
      simp

theorem toDigits_eq_decRepr (n : Nat) : Nat.toDigits 10 n = decRepr n := by
  have hn : n < 10 ^ (n + 1) := by
    calc n < 10 ^ n := Nat.lt_pow_self (by decide) n
    _ ≤ 10 ^ (n + 1) := Nat.pow_le_pow_right (by decide) (Nat.le_succ n)
  simpa using toDigitsCore_eq_decRepr n n [] hn

theorem digitChar_inj {m n : Nat} (hm : m < 10) (hn : n < 10)
    (h : Nat.digitChar m = Nat.digitChar n) : m = n := by
  have : ∀ a, a < 10 → ∀ b, b < 10 → Nat.digitChar a = Nat.digitChar b → a = b := by
    decide
  exact this m hm n hn h

theorem decRepr_inj : ∀ {m n : Nat}, decRepr m = decRepr n → m = n := by
  intro m
  induction m using Nat.strong_induction_on with
  | _ m ih =>
    intro n h
    by_cases hm : m < 10
    · by_cases hn : n < 10
      · rw [decRepr_of_lt hm, decRepr_of_lt hn] at h
        exact digitChar_inj hm hn (by simpa using h)
      · rw [decRepr_of_lt hm, decRepr_of_ge hn] at h
        have := congrArg List.length h
        simp at this
        exact absurd this (decRepr_ne_nil _)
    · by_cases hn : n < 10
      · rw [decRepr_of_ge hm, decRepr_of_lt hn] at h
        have := congrArg List.length h
        simp at this
        exact absurd this (decRepr_ne_nil _)
      · rw [decRepr_of_ge hm, decRepr_of_ge hn] at h
        have h' := congrArg List.reverse h
        simp at h'
        have hdig : m % 10 = n % 10 :=
          digitChar_inj (Nat.mod_lt _ (by decide)) (Nat.mod_lt _ (by decide)) h'.1
        have hdiv : m / 10 = n / 10 := by
          have hrec : decRepr (m / 10) = decRepr (n / 10) := by
            have := congrArg List.reverse h'.2
            simpa using this
          exact ih (m / 10) (Nat.div_lt_self (by omega) (by decide)) hrec
        omega

/-- `Nat.repr` (decimal stringification, as used by the template literal
in the source) is injective. -/
theorem natRepr_inj {m n : Nat} (h : Nat.repr m = Nat.repr n) : m = n := by
  apply decRepr_inj
  have : (Nat.toDigits 10 m).asString = (Nat.toDigits 10 n).asString := h
  rw [toDigits_eq_decRepr, toDigits_eq_decRepr] at this
  simp only [List.asString] at this
  exact congrArg String.data this

/-! ## String groundwork -/

theorem string_data_inj {s t : String} (h : s.data = t.data) : s = t := by
  cases s
  cases t
  exact congrArg String.mk h

theorem string_append_left_cancel {b : String} {s t : String}
    (h : b ++ s = b ++ t) : s = t := by
  apply string_data_inj
  have hd : b.data ++ s.data = b.data ++ t.data := by
    have := congrArg String.data h
    simpa [String.data_append] using this
  exact List.append_cancel_left hd

theorem append_repr_inj {b : String} {m n : Nat}
    (h : b ++ Nat.repr m = b ++ Nat.repr n) : m = n :=
  natRepr_inj (string_append_left_cancel h)

/-- Two base-plus-counter concatenations can only agree when one base is a
starting segment of the other. -/
theorem append_eq_append_take {b₁ b₂ s₁ s₂ : String} (h : b₁ ++ s₁ = b₂ ++ s₂)
    (hle : b₁.data.length ≤ b₂.data.length) :
    b₂.data.take b₁.data.length = b₁.data := by
  have hd : b₁.data ++ s₁.data = b₂.data ++ s₂.data := by
    have := congrArg String.data h
    simpa [String.data_append] using this
  have h₁ : (b₁.data ++ s₁.data).take b₁.data.length = b₁.data := by
    simpa using List.take_left b₁.data s₁.data
  have h₂ : (b₂.data ++ s₂.data).take b₁.data.length = b₂.data.take b₁.data.length :=
    List.take_append_of_le_length hle
  rw [hd] at h₁
  rw [h₂] at h₁
  exact h₁

/-! ## Code Generator theorems -/

theorem aisc_group_general (b : String) :
    ∀ (ve : List (String × String)) (counters : List (String × Nat)),
      ((ve.zip (aiscAux counters ve)).filter (fun q => stripHash q.1.2 == b)).map
          (fun q => q.2.2)
        = (List.range (countBase b ve)).map
            (fun i => b ++ Nat.repr ((counters.lookup b).getD 1 + i)) := by
  intro ve
  induction ve with
  | nil =>
    intro counters
    simp [aiscAux, countBase]
  | cons p rest ih =>
    obtain ⟨v, code⟩ := p
    intro counters
    by_cases hb : stripHash code = b
    · have hcnt : countBase b ((v, code) :: rest) = countBase b rest + 1 := by
        simp [countBase, List.filter_cons, hb]
      have hlook : (((b, (counters.lookup b).getD 1 + 1)
          :: counters).lookup b).getD 1
          = (counters.lookup b).getD 1 + 1 := by
        simp [List.lookup]
      simp only [aiscAux, List.zip_cons_cons, List.filter_cons, hb, hcnt,
        beq_self_eq_true, if_true, List.map_cons]
      rw [ih, hlook]
      rw [List.range_succ_eq_map, List.map_cons, List.map_map]
      simp only [List.cons.injEq, Nat.add_zero]
      refine ⟨trivial, ?_⟩
      apply List.map_congr_left
      intro i _
      simp only [Function.comp]
      have : (counters.lookup b).getD 1 + 1 + i = (counters.lookup b).getD 1 + i.succ := by
        omega
      rw [this]
    · have hcnt : countBase b ((v, code) :: rest) = countBase b rest := by
        simp [countBase, List.filter_cons, hb]
      have hlook : (((stripHash code, (counters.lookup (stripHash code)).getD 1 + 1)
          :: counters).lookup b).getD 1
          = (counters.lookup b).getD 1 := by
        simp [List.lookup, beq_eq_false_iff_ne.mpr (Ne.symm hb)]
      have hbeq : (stripHash code == b) = false := beq_eq_false_iff_ne.mpr hb
      simp only [aiscAux, List.zip_cons_cons, List.filter_cons, hbeq,
        Bool.false_eq_true, if_false, hcnt]
      rw [ih, hlook]

theorem groupCodes_eq (ve : List (String × String)) (b : String) :
    groupCodes b ve
      = (List.range (countBase b ve)).map (fun i => b ++ Nat.repr (1 + i)) := by
  have h := aisc_group_general b ve []
  simpa [groupCodes, autoIncrementSpawnCodes, List.lookup] using h

theorem groupCodes_nodup (ve : List (String × String)) (b : String) :
    (groupCodes b ve).Nodup := by
  rw [groupCodes_eq]
  apply List.Nodup.map
  · intro i j hij
    have := append_repr_inj hij
    omega
  · exact List.nodup_range _

theorem allBases_cons (p : String × String) (ve : List (String × String)) :
    allBases (p :: ve) = stripHash p.2 :: allBases ve := by
  simp [allBases]

theorem basesSeparated_tail {p : String × String} {ve : List (String × String)}
    (h : basesSeparated (p :: ve)) : basesSeparated ve := by
  intro b₁ h₁ b₂ h₂
  exact h b₁ (by rw [allBases_cons]; exact List.mem_cons_of_mem _ h₁)
    b₂ (by rw [allBases_cons]; exact List.mem_cons_of_mem _ h₂)

theorem sep_base_eq {ve : List (String × String)} (hsep : basesSeparated ve)
    {b₁ b₂ s₁ s₂ : String} (h₁ : b₁ ∈ allBases ve) (h₂ : b₂ ∈ allBases ve)
    (h : b₁ ++ s₁ = b₂ ++ s₂) : b₁ = b₂ := by
  rcases Nat.le_total b₁.data.length b₂.data.length with hle | hle
  · exact hsep b₁ h₁ b₂ h₂ (append_eq_append_take h hle)
  · exact (hsep b₂ h₂ b₁ h₁ (append_eq_append_take h.symm hle)).symm

/-- Every code `aiscAux` generates is a base of the remaining manifest
followed by a counter at least as large as that base's current counter. -/
theorem aisc_mem :
    ∀ (ve : List (String × String)) (counters : List (String × Nat)) (s : String),
      s ∈ (aiscAux counters ve).map (fun q => q.2) →
      ∃ b c, b ∈ allBases ve ∧ s = b ++ Nat.repr c ∧
        (counters.lookup b).getD 1 ≤ c := by
  intro ve
  induction ve with
  | nil =>
    intro counters s hs
    simp [aiscAux] at hs
  | cons p rest ih =>
    obtain ⟨v, code⟩ := p
    intro counters s hs
    simp only [aiscAux, List.map_cons, List.mem_cons] at hs
    rcases hs with h | h
    · exact ⟨stripHash code, (counters.lookup (stripHash code)).getD 1,
        by rw [allBases_cons]; exact List.mem_cons_self _ _, h, Nat.le_refl _⟩
    · obtain ⟨b, c, hb, hseq, hc⟩ := ih _ s h
      refine ⟨b, c, by rw [allBases_cons]; exact List.mem_cons_of_mem _ hb, hseq, ?_⟩
      by_cases hbb : b = stripHash code
      · subst hbb
        have : ((((stripHash code, (counters.lookup (stripHash code)).getD 1 + 1)
            :: counters).lookup (stripHash code)).getD 1)
            = (counters.lookup (stripHash code)).getD 1 + 1 := by
          simp [List.lookup]
        rw [this] at hc
        omega
      · have : ((((stripHash code, (counters.lookup (stripHash code)).getD 1 + 1)
            :: counters).lookup b).getD 1) = (counters.lookup b).getD 1 := by
          simp [List.lookup, beq_eq_false_iff_ne.mpr hbb]
        rw [this] at hc
        exact hc

/-- With pairwise non-nested base keys, all generated codes are distinct,
whatever the incoming counter state. -/
theorem aisc_codes_nodup :
    ∀ (ve : List (String × String)), basesSeparated ve →
      ∀ (counters : List (String × Nat)),
        ((aiscAux counters ve).map (fun q => q.2)).Nodup := by
  intro ve
  induction ve with
  | nil =>
    intro _ counters
    simp [aiscAux]
  | cons p rest ih =>
    obtain ⟨v, code⟩ := p
    intro hsep counters
    simp only [aiscAux, List.map_cons, List.nodup_cons]
    constructor
    · intro hmem
      obtain ⟨b, c, hb, hseq, hc⟩ := aisc_mem rest _ _ hmem
      have hb0 : stripHash code ∈ allBases ((v, code) :: rest) := by
        rw [allBases_cons]; exact List.mem_cons_self _ _
      have hbm : b ∈ allBases ((v, code) :: rest) := by
        rw [allBases_cons]; exact List.mem_cons_of_mem _ hb
      have hbe : stripHash code = b := sep_base_eq hsep hb0 hbm hseq
      subst hbe
      have hcc := append_repr_inj hseq
      have : ((((stripHash code, (counters.lookup (stripHash code)).getD 1 + 1)
          :: counters).lookup (stripHash code)).getD 1)
          = (counters.lookup (stripHash code)).getD 1 + 1 := by
        simp [List.lookup]
      rw [this] at hc
      omega
    · exact ih (basesSeparated_tail hsep) _

/-! ## File Renamer theorems -/

theorem renameStep_nodup {fs : List String} {oldN newN : String} (h : fs.Nodup) :
    (renameStep fs oldN newN).1.Nodup := by
  unfold renameStep
  by_cases hm : oldN ∈ fs
  · simp only [hm, if_true]
    exact (h.erase oldN).insert
  · simpa [hm] using h

theorem renamePats_nodup (v c : String) :
    ∀ (pats : List String) (fs : List String), fs.Nodup →
      (renamePats v c pats fs).1.Nodup := by
  intro pats
  induction pats with
  | nil => intro fs h; simpa [renamePats] using h
  | cons e ps ih =>
    intro fs h
    simp only [renamePats]
    exact ih _ (renameStep_nodup h)

theorem renameVehicleFiles_nodup :
    ∀ (codes : List (String × String)) (fs : List String), fs.Nodup →
      (renameVehicleFiles codes fs).1.Nodup := by
  intro codes
  induction codes with
  | nil => intro fs h; simpa [renameVehicleFiles] using h
  | cons q rest ih =>
    obtain ⟨v, c⟩ := q
    intro fs h
    simp only [renameVehicleFiles]
    exact ih _ (renamePats_nodup v c patterns fs h)

theorem renameStep_not_mem {x : String} {fs : List String} {oldN newN : String}
    (hx : x ∉ fs) (hne : x ≠ newN) : x ∉ (renameStep fs oldN newN).1 := by
  unfold renameStep
  by_cases hm : oldN ∈ fs
  · simp only [hm, if_true]
    intro hmem
    rcases List.mem_insert_iff.mp hmem with h | h
    · exact hne h
    · exact hx (List.mem_of_mem_erase h)
  · simpa [hm] using hx

theorem renameStep_mem {x : String} {fs : List String} {oldN newN : String}
    (hmem : x ∈ (renameStep fs oldN newN).1) : x ∈ fs ∨ x = newN := by
  unfold renameStep at hmem
  by_cases hm : oldN ∈ fs
  · simp only [hm, if_true] at hmem
    rcases List.mem_insert_iff.mp hmem with h | h
    · exact Or.inr h
    · exact Or.inl (List.mem_of_mem_erase h)
  · simp only [hm, if_false] at hmem
    exact Or.inl hmem

theorem renamePats_not_mem {x v c : String} :
    ∀ (pats : List String) (fs : List String), x ∉ fs →
      (∀ e ∈ pats, x ≠ c ++ e) → x ∉ (renamePats v c pats fs).1 := by
  intro pats
  induction pats with
  | nil => intro fs hx _; simpa [renamePats] using hx
  | cons e ps ih =>
    intro fs hx hne
    simp only [renamePats]
    exact ih _ (renameStep_not_mem hx (hne e (List.mem_cons_self _ _)))
      (fun e' he' => hne e' (List.mem_cons_of_mem _ he'))

theorem renamePats_removes {v c : String} :
    ∀ (pats : List String) (fs : List String), fs.Nodup →
      (∀ e₁ ∈ pats, ∀ e₂ ∈ pats, c ++ e₂ ≠ v ++ e₁) →
      ∀ e ∈ pats, v ++ e ∉ (renamePats v c pats fs).1 := by
  intro pats
  induction pats with
  | nil => intro fs _ _ e he; simp at he
  | cons e₀ ps ih =>
    intro fs hnd hsep e he
    rcases List.mem_cons.mp he with rfl | hmem
    · -- the head suffix: removed by its own rename step, never re-added
      simp only [renamePats]
      apply renamePats_not_mem
      · -- v ++ e ∉ (renameStep fs (v ++ e) (c ++ e)).1
        unfold renameStep
        by_cases hm : (v ++ e) ∈ fs
        · simp only [hm, if_true]
          intro hmem
          rcases List.mem_insert_iff.mp hmem with h | h
          · exact hsep e (List.mem_cons_self _ _) e (List.mem_cons_self _ _) h.symm
          · exact (((hnd.mem_erase_iff).mp h).1 rfl).elim
        · simpa [hm] using hm
      · intro e' he'
        intro hcontra
        exact hsep e (List.mem_cons_self _ _) e' (List.mem_cons_of_mem _ he')
          hcontra.symm
    · simp only [renamePats]
      exact ih _ (renameStep_nodup hnd)
        (fun e₁ h₁ e₂ h₂ =>
          hsep e₁ (List.mem_cons_of_mem _ h₁) e₂ (List.mem_cons_of_mem _ h₂))
        e hmem

theorem renameVehicleFiles_not_mem {x : String} :
    ∀ (codes : List (String × String)) (fs : List String), x ∉ fs →
      (∀ q ∈ codes, ∀ e ∈ patterns, x ≠ q.2 ++ e) →
      x ∉ (renameVehicleFiles codes fs).1 := by
  intro codes
  induction codes with
  | nil => intro fs hx _; simpa [renameVehicleFiles] using hx
  | cons q rest ih =>
    obtain ⟨v, c⟩ := q
    intro fs hx hne
    simp only [renameVehicleFiles]
    exact ih _
      (renamePats_not_mem patterns fs hx
        (fun e he => hne (v, c) (List.mem_cons_self _ _) e he))
      (fun q' hq' e he => hne q' (List.mem_cons_of_mem _ hq') e he)

/-- After one run of the File Renamer, no "original identifier plus
recognized suffix" name remains — provided no generated code plus suffix
coincides with a mapping key plus suffix. -/
theorem renameVehicleFiles_removes :
    ∀ (codes : List (String × String)) (fs : List String), fs.Nodup →
      (∀ q₁ ∈ codes, ∀ q₂ ∈ codes, ∀ e₁ ∈ patterns, ∀ e₂ ∈ patterns,
        q₂.2 ++ e₂ ≠ q₁.1 ++ e₁) →
      ∀ q ∈ codes, ∀ e ∈ patterns, q.1 ++ e ∉ (renameVehicleFiles codes fs).1 := by
  intro codes
  induction codes with
  | nil => intro fs _ _ q hq; simp at hq
  | cons q₀ rest ih =>
    obtain ⟨v, c⟩ := q₀
    intro fs hnd hsep q hq e he
    rcases List.mem_cons.mp hq with rfl | hmem
    · simp only [renameVehicleFiles]
      apply renameVehicleFiles_not_mem rest _
      · exact renamePats_removes patterns fs hnd
          (fun e₁ h₁ e₂ h₂ =>
            hsep (v, c) (List.mem_cons_self _ _) (v, c) (List.mem_cons_self _ _)
              e₁ h₁ e₂ h₂)
          e he
      · intro q' hq' e' he' hcontra
        exact hsep (v, c) (List.mem_cons_self _ _) q' (List.mem_cons_of_mem _ hq')
          e he e' he' hcontra.symm
    · simp only [renameVehicleFiles]
      exact ih _ (renamePats_nodup v c patterns fs hnd)
        (fun q₁ h₁ q₂ h₂ => hsep q₁ (List.mem_cons_of_mem _ h₁)
          q₂ (List.mem_cons_of_mem _ h₂))
        q hmem e he

theorem renamePats_zero {v c : String} :
    ∀ (pats : List String) (fs : List String), (∀ e ∈ pats, v ++ e ∉ fs) →
      renamePats v c pats fs = (fs, 0) := by
  intro pats
  induction pats with
  | nil => intro fs _; rfl
  | cons e ps ih =>
    intro fs habs
    have hstep : renameStep fs (v ++ e) (c ++ e) = (fs, 0) := by
      unfold renameStep
      simp [habs e (List.mem_cons_self _ _)]
    simp only [renamePats, hstep]
    rw [ih fs (fun e' he' => habs e' (List.mem_cons_of_mem _ he'))]
    rfl

theorem renameVehicleFiles_zero :
    ∀ (codes : List (String × String)) (fs : List String),
      (∀ q ∈ codes, ∀ e ∈ patterns, q.1 ++ e ∉ fs) →
      renameVehicleFiles codes fs = (fs, 0) := by
  intro codes
  induction codes with
  | nil => intro fs _; rfl
  | cons q rest ih =>
    obtain ⟨v, c⟩ := q
    intro fs habs
    have hpats : renamePats v c patterns fs = (fs, 0) :=
      renamePats_zero patterns fs
        (fun e he => habs (v, c) (List.mem_cons_self _ _) e he)
    simp only [renameVehicleFiles, hpats]
    rw [ih fs (fun q' hq' e he => habs q' (List.mem_cons_of_mem _ hq') e he)]
    rfl

/-! ## Script Text Rewriter theorems -/

theorem startsWithL_iff :
    ∀ (pat s : List Char), startsWithL s pat = true ↔ ∃ t, s = pat ++ t := by
  intro pat
  induction pat with
  | nil =>
    intro s
    simp [startsWithL]
  | cons p ps ih =>
    intro s
    cases s with
    | nil =>
      simp [startsWithL]
    | cons a s' =>
      simp only [startsWithL, Bool.and_eq_true, beq_iff_eq, ih s']
      constructor
      · rintro ⟨rfl, t, rfl⟩
        exact ⟨t, rfl⟩
      · rintro ⟨t, ht⟩
        injection ht with h₁ h₂
        exact ⟨h₁, t, h₂⟩

theorem startsWithL_append (pat t : List Char) :
    startsWithL (pat ++ t) pat = true :=
  (startsWithL_iff pat _).mpr ⟨t, rfl⟩

/-- Scanner for "`pat` occurs somewhere in `s`". -/
def hasSubL (pat : List Char) : List Char → Bool
  | [] => startsWithL [] pat
  | ch :: t => startsWithL (ch :: t) pat || hasSubL pat t

theorem hasSubL_iff :
    ∀ (pat s : List Char), hasSubL pat s = true ↔ ∃ a b, s = a ++ pat ++ b := by
  intro pat s
  induction s with
  | nil =>
    simp only [hasSubL, startsWithL_iff]
    constructor
    · rintro ⟨t, ht⟩
      exact ⟨[], t, ht⟩
    · rintro ⟨a, b, hab⟩
      have ha : a = [] := by
        cases a with
        | nil => rfl
        | cons x xs => simp at hab
      subst ha
      exact ⟨b, by simpa using hab⟩
  | cons ch t ih =>
    simp only [hasSubL, Bool.or_eq_true, startsWithL_iff, ih]
    constructor
    · rintro (⟨u, hu⟩ | ⟨a, b, hab⟩)
      · exact ⟨[], u, by simpa using hu⟩
      · exact ⟨ch :: a, b, by simp [hab]⟩
    · rintro ⟨a, b, hab⟩
      cases a with
      | nil =>
        exact Or.inl ⟨b, by simpa using hab⟩
      | cons x a' =>
        injection hab with h₁ h₂
        exact Or.inr ⟨a', b, h₂⟩

theorem replaceAllFuel_adequate {pat rep : List Char} :
    ∀ (f₁ f₂ : Nat) (s : List Char), s.length ≤ f₁ → s.length ≤ f₂ →
      replaceAllFuel pat rep f₁ s = replaceAllFuel pat rep f₂ s := by
  intro f₁
  induction f₁ with
  | zero =>
    intro f₂ s h₁ _
    have hs : s = [] := List.length_eq_zero.mp (Nat.le_zero.mp h₁)
    subst hs
    cases f₂ <;> rfl
  | succ f ih =>
    intro f₂ s h₁ h₂
    cases s with
    | nil => cases f₂ <;> rfl
    | cons ch t =>
      cases f₂ with
      | zero => exact absurd h₂ (by simp)
      | succ g =>
        simp only [replaceAllFuel]
        by_cases hemp : pat.isEmpty
        · simp [hemp]
        · simp only [hemp, if_false, Bool.false_eq_true]
          have hp : 1 ≤ pat.length := by
            cases pat with
            | nil => simp [List.isEmpty_nil] at hemp
            | cons p ps => simp
          by_cases hsw : startsWithL (ch :: t) pat = true
          · simp only [hsw, if_true]
            have hlen : ((ch :: t).drop pat.length).length ≤ f := by
              simp only [List.length_drop, List.length_cons]
              simp only [List.length_cons] at h₁
              omega
            have hlen' : ((ch :: t).drop pat.length).length ≤ g := by
              simp only [List.length_drop, List.length_cons]
              simp only [List.length_cons] at h₂
              omega
            rw [ih g ((ch :: t).drop pat.length) hlen hlen']
          · simp only [hsw, Bool.false_eq_true, if_false]
            rw [ih g t (by simpa using h₁) (by simpa using h₂)]

theorem replaceAllL_cons (pat rep : List Char) (ch : Char) (t : List Char) :
    replaceAllL pat rep (ch :: t)
      = if pat.isEmpty then ch :: t
        else if startsWithL (ch :: t) pat then
          rep ++ replaceAllL pat rep ((ch :: t).drop pat.length)
        else ch :: replaceAllL pat rep t := by
  by_cases hemp : pat.isEmpty
  · simp only [replaceAllL, List.length_cons, replaceAllFuel, hemp, if_true]
  · have hp : 1 ≤ pat.length := by
      cases pat with
      | nil => simp [List.isEmpty_nil] at hemp
      | cons p ps => simp
    by_cases hsw : startsWithL (ch :: t) pat = true
    · have hlen : ((ch :: t).drop pat.length).length ≤ t.length := by
        simp only [List.length_drop, List.length_cons]
        omega
      simp only [replaceAllL, List.length_cons, replaceAllFuel, hemp, hsw, if_true,
        if_false, Bool.false_eq_true]
      rw [replaceAllFuel_adequate t.length ((ch :: t).drop pat.length).length
        ((ch :: t).drop pat.length) hlen (Nat.le_refl _)]
    · simp only [replaceAllL, List.length_cons, replaceAllFuel, hemp, hsw, if_false,
        Bool.false_eq_true]

theorem replaceAllL_no_occur {pat rep : List Char} :
    ∀ s : List Char, (∀ a b, s ≠ a ++ pat ++ b) → replaceAllL pat rep s = s := by
  intro s
  induction s with
  | nil => intro _; rfl
  | cons ch t ih =>
    intro h
    rw [replaceAllL_cons]
    by_cases hemp : pat.isEmpty
    · simp [hemp]
    · have hsw : startsWithL (ch :: t) pat = false := by
        rw [Bool.eq_false_iff]
        intro hsw
        obtain ⟨u, hu⟩ := (startsWithL_iff pat _).mp hsw
        exact h [] u (by simpa using hu)
      simp only [hemp, if_false, Bool.false_eq_true, hsw]
      rw [ih]
      intro a b hab
      exact h (ch :: a) b (by simp [hab])

/-- The leftmost match of a quote-led pattern in `a ++ pat ++ b` with `a`
quote-free is at the boundary: the occurrence is replaced and scanning
resumes after it. -/
theorem replaceAllL_clean {q : Char} {ps rep : List Char} :
    ∀ (a : List Char) (b : List Char), q ∉ a →
      replaceAllL (q :: ps) rep (a ++ (q :: ps) ++ b)
        = a ++ rep ++ replaceAllL (q :: ps) rep b := by
  intro a
  induction a with
  | nil =>
    intro b _
    have hsw : startsWithL (q :: (ps ++ b)) (q :: ps) = true := by
      have := startsWithL_append (q :: ps) b
      rwa [List.cons_append] at this
    have hdrop : (q :: (ps ++ b)).drop (q :: ps).length = b := by
      have := List.drop_left (q :: ps) b
      rwa [List.cons_append] at this
    show replaceAllL (q :: ps) rep ((q :: ps) ++ b)
      = ([] : List Char) ++ rep ++ replaceAllL (q :: ps) rep b
    rw [List.cons_append, replaceAllL_cons]
    simp only [List.isEmpty_cons, if_false, Bool.false_eq_true, hsw, if_true, hdrop,
      List.nil_append]
  | cons x a' ih =>
    intro b hq
    have hxq : (x == q) = false :=
      beq_eq_false_iff_ne.mpr (fun h => hq (h ▸ List.mem_cons_self _ _))
    show replaceAllL (q :: ps) rep (x :: (a' ++ (q :: ps) ++ b))
      = (x :: a') ++ rep ++ replaceAllL (q :: ps) rep b
    rw [replaceAllL_cons]
    simp only [List.isEmpty_cons, if_false, Bool.false_eq_true, startsWithL, hxq,
      Bool.false_and]
    rw [ih b (fun hmem => hq (List.mem_cons_of_mem _ hmem))]
    simp

theorem jsReplaceAll_no_occur {s pat rep : String}
    (h : hasSubL pat.data s.data = false) : jsReplaceAll s pat rep = s := by
  have hno : ∀ a b, s.data ≠ a ++ pat.data ++ b := by
    intro a b hab
    have ht : hasSubL pat.data s.data = true := (hasSubL_iff _ _).mpr ⟨a, b, hab⟩
    rw [h] at ht
    exact absurd ht (by simp)
  unfold jsReplaceAll
  rw [replaceAllL_no_occur s.data hno]

theorem updateUlcFile_no_occur :
    ∀ (m : List (String × String)) (content : String),
      (∀ q ∈ m, hasSubL (quoteStr q.1).data content.data = false) →
      updateUlcFile m content = content := by
  intro m
  induction m with
  | nil => intro content _; rfl
  | cons q rest ih =>
    intro content h
    simp only [updateUlcFile, List.foldl_cons]
    rw [jsReplaceAll_no_occur (h q (List.mem_cons_self _ _))]
    exact ih content (fun q' hq' => h q' (List.mem_cons_of_mem _ hq'))

theorem quoteStr_data (s : String) : (quoteStr s).data = '"' :: (s.data ++ ['"']) := by
  have h1 : ("\"" : String).data = ['"'] := rfl
  simp [quoteStr, String.data_append, h1]

/-- One mapping entry on a script text whose part before the first quoted
occurrence holds no quote character: exactly that quoted occurrence is
replaced by the quoted new code, and scanning continues in the rest. -/
theorem jsReplaceAll_quoted {o c a b : String} (ha : '"' ∉ a.data) :
    jsReplaceAll (a ++ quoteStr o ++ b) (quoteStr o) (quoteStr c)
      = a ++ quoteStr c ++ jsReplaceAll b (quoteStr o) (quoteStr c) := by
  apply string_data_inj
  have hpat : (quoteStr o).data = '"' :: (o.data ++ ['"']) := quoteStr_data o
  show replaceAllL (quoteStr o).data (quoteStr c).data (a ++ quoteStr o ++ b).data
      = (a ++ quoteStr c ++ jsReplaceAll b (quoteStr o) (quoteStr c)).data
  rw [show (a ++ quoteStr o ++ b).data = a.data ++ (quoteStr o).data ++ b.data by
    simp [String.data_append]]
  rw [hpat, replaceAllL_clean a.data b.data ha, ← hpat]
  simp [String.data_append, jsReplaceAll]

theorem updateUlcFile_single {o c a b : String} (ha : '"' ∉ a.data) :
    updateUlcFile [(o, c)] (a ++ quoteStr o ++ b)
      = a ++ quoteStr c ++ jsReplaceAll b (quoteStr o) (quoteStr c) := by
  simp only [updateUlcFile, List.foldl_cons, List.foldl_nil]
  exact jsReplaceAll_quoted ha

theorem aisc_keys :
    ∀ (counters : List (String × Nat)) (ve : List (String × String)),
      (aiscAux counters ve).map (fun q => q.1) = ve.map (fun q => q.1) := by
  intro counters ve
  induction ve generalizing counters with
  | nil => rfl
  | cons p rest ih =>
    obtain ⟨v, code⟩ := p
    simp only [aiscAux, List.map_cons, ih]

/-! ## Claims -/

/-- C1: For every vehicles manifest, `autoIncrementSpawnCodes` assigns one
code per entry, keyed by the entry's vehicle identifier in manifest
iteration order (first conjunct), and within any base group `b` — entries
whose prefix, after stripping one trailing `#` marker, is `b` — the
generated codes are exactly `b1, b2, ..., bCount` in manifest order, with
no gaps or duplicates (second and third conjuncts).  The mapping is a
deterministic function of the manifest: `autoIncrementSpawnCodes` is a
pure function of `ve`. -/
theorem C1_spawn_codes_per_group (ve : List (String × String)) (b : String) :
    (autoIncrementSpawnCodes ve).map (fun q => q.1) = ve.map (fun q => q.1)
    ∧ groupCodes b ve
        = (List.range (countBase b ve)).map (fun i => b ++ Nat.repr (i + 1))
    ∧ (groupCodes b ve).Nodup := by
  refine ⟨aisc_keys [] ve, ?_, groupCodes_nodup ve b⟩
  rw [groupCodes_eq]
  apply List.map_congr_left
  intro i _
  rw [Nat.add_comm]

/-- C2 counterexample: on the manifest with eleven entries of code prefix
`"A#"` and one of `"A1#"`, the eleventh `A`-group entry and the first
`A1`-group entry both receive code `"A11"`, so the twelve generated codes
are not pairwise distinct — cross-group distinctness fails. -/
theorem C2_counterexample :
    ¬ (allCodes
        [("v01", "A#"), ("v02", "A#"), ("v03", "A#"), ("v04", "A#"),
         ("v05", "A#"), ("v06", "A#"), ("v07", "A#"), ("v08", "A#"),
         ("v09", "A#"), ("v10", "A#"), ("v11", "A#"), ("v12", "A1#")]).Nodup := by
  decide

/-- C2 amended: codes within one base group are always pairwise distinct;
and whenever no base group key of the manifest is a (proper) starting
segment of another base group key, all N generated codes across all G
groups are pairwise distinct.  (Without that proviso distinctness can
fail: see the counterexample, where base key `A` is a starting segment of
base key `A1`.) -/
theorem C2_amended (ve : List (String × String)) :
    (∀ b, (groupCodes b ve).Nodup)
    ∧ (basesSeparated ve → (allCodes ve).Nodup) :=
  ⟨fun b => groupCodes_nodup ve b, fun hsep => aisc_codes_nodup ve hsep []⟩

theorem C2_amended_witness :
    basesSeparated [("car1", "AB#"), ("car2", "AB#"), ("car3", "CD")]
    ∧ (allCodes [("car1", "AB#"), ("car2", "AB#"), ("car3", "CD")]).Nodup :=
  ⟨by decide, (C2_amended [("car1", "AB#"), ("car2", "AB#"), ("car3", "CD")]).2
    (by decide)⟩

/-- C3 counterexample: the `build.mjs` variant of `updateUlcFile` replaces
the raw identifier, not its quoted form: on the script text `myoldcarx`,
where `oldcar` occurs only as an unquoted substring of other text, the
mapping entry (oldcar ↦ ab1) still rewrites the text to `myab1x` —
against the claim that such an occurrence is never replaced. -/
theorem C3_counterexample :
    updateUlcFileMjs [("oldcar", "ab1")] "myoldcarx" = "myab1x"
    ∧ "myab1x" ≠ "myoldcarx" := by
  exact ⟨by decide, by decide⟩

/-- C3 amended: the claim holds for the current script's `updateUlcFile`,
which scopes each substitution to the quoted form; the `build.mjs`
variant replaces raw occurrences (see counterexample).  For the current
script: (i) when no mapping entry's quoted original occurs in the text,
the text is returned unchanged — an identifier occurring only unquoted is
never replaced; (ii) a quoted occurrence is replaced by the quoted new
code, and scanning continues after it (stated for one mapping entry, with
the text before the occurrence free of quote characters). -/
theorem C3_amended :
    (∀ (m : List (String × String)) (content : String),
      (∀ q ∈ m, hasSubL (quoteStr q.1).data content.data = false) →
      updateUlcFile m content = content)
    ∧ (∀ (o c a b : String), '"' ∉ a.data →
      updateUlcFile [(o, c)] (a ++ quoteStr o ++ b)
        = a ++ quoteStr c ++ jsReplaceAll b (quoteStr o) (quoteStr c)) :=
  ⟨updateUlcFile_no_occur, fun _ _ _ _ ha => updateUlcFile_single ha⟩

theorem C3_amended_witness :
    (∀ q ∈ [("oldcar", "ab1")],
      hasSubL (quoteStr q.1).data ("myoldcarx" : String).data = false)
    ∧ updateUlcFile [("oldcar", "ab1")] "myoldcarx" = "myoldcarx"
    ∧ '"' ∉ ("spawn( " : String).data
    ∧ updateUlcFile [("oldcar", "ab1")] ("spawn( " ++ quoteStr "oldcar" ++ " )")
        = "spawn( " ++ quoteStr "ab1"
            ++ jsReplaceAll " )" (quoteStr "oldcar") (quoteStr "ab1") :=
  ⟨by decide, C3_amended.1 [("oldcar", "ab1")] "myoldcarx" (by decide),
   by decide, C3_amended.2 "oldcar" "ab1" "spawn( " " )" (by decide)⟩

/-- C4 counterexample: the `build.mjs` variant of `updateMetaFiles`
compares the item identifier exactly, so an item whose `modelName` is
`OldCar` — differing from the mapping key `oldcar` only in letter case —
is NOT rewritten (both for the vehicles.meta and the carvariations.meta
shape), against the claim that case variants are still rewritten. -/
theorem C4_counterexample :
    rewriteVehItemMjs [("oldcar", "ab1")] [("t", ⟨"H1", "A1"⟩)] [("oldcar", "t")]
        ⟨"OldCar", "OldCar", "OldCar", "h0", "a0"⟩
      = .ok ⟨"OldCar", "OldCar", "OldCar", "h0", "a0"⟩
    ∧ rewriteVarItemMjs [("oldcar", "ab1")] ⟨"OldCar"⟩ = ⟨"OldCar"⟩
    ∧ jsToLower "OldCar" = "oldcar"
    ∧ ("OldCar" : String) ≠ "ab1" := by
  exact ⟨rfl, rfl, by decide, by decide⟩

/-- C4 amended: the current script's `updateMetaFiles` matches
case-insensitively (it lowercases the item identifier before the lookup,
the mapping keys being lower-case): an item whose lowercased identifier
hits a mapping key is rewritten to the new code, for both metadata
shapes.  The `build.mjs` variant compares exactly and misses case
variants (see counterexample). -/
theorem C4_amended (codes : List (String × String))
    (vdata : List (String × TemplateData)) (bdata : List (String × String))
    (item : VehItem) (vitem : VarItem) (sc sc' dref : String) (td : TemplateData)
    (hlook : codes.lookup (jsToLower item.modelName) = some sc) (hsc : sc ≠ "")
    (hb : bdata.lookup (jsToLower item.modelName) = some dref)
    (hv : vdata.lookup dref = some td)
    (hlook' : codes.lookup (jsToLower vitem.modelName) = some sc') (hsc' : sc' ≠ "") :
    rewriteVehItem codes vdata bdata item = .ok ⟨sc, sc, sc, td.handling, td.audio⟩
    ∧ rewriteVarItem codes vitem = ⟨sc'⟩ := by
  constructor
  · unfold rewriteVehItem
    simp only [hlook, hsc, if_false, hb, hv]
  · unfold rewriteVarItem
    simp only [hlook', hsc', if_false]

theorem C4_amended_witness :
    rewriteVehItem [("oldcar", "ab1")] [("t", ⟨"H1", "A1"⟩)] [("oldcar", "t")]
        ⟨"OldCar", "x", "y", "z", "w"⟩ = .ok ⟨"ab1", "ab1", "ab1", "H1", "A1"⟩
    ∧ rewriteVarItem [("oldcar", "ab1")] ⟨"OldCar"⟩ = ⟨"ab1"⟩ :=
  C4_amended [("oldcar", "ab1")] [("t", ⟨"H1", "A1"⟩)] [("oldcar", "t")]
    ⟨"OldCar", "x", "y", "z", "w"⟩ ⟨"OldCar"⟩ "ab1" "ab1" "t" ⟨"H1", "A1"⟩
    (by decide) (by decide) (by decide) (by decide) (by decide) (by decide)

theorem fixItems_wellformed (p : String) :
    ∀ (items : List KitItem),
      (∀ it ∈ items, it.kitName ≠ none ∧ ∃ v, it.id = IdField.value v) →
      fixItems p items
        = (items.map (fun it =>
            match it.id with
            | IdField.value v => ⟨it.kitName, IdField.value (p ++ v)⟩
            | _ => it), false) := by
  intro items
  induction items with
  | nil => intro _; rfl
  | cons it rest ih =>
    intro h
    obtain ⟨hkn, v, hv⟩ := h it (List.mem_cons_self _ _)
    obtain ⟨kn, hkn'⟩ := Option.ne_none_iff_exists'.mp hkn
    have hrest := ih (fun it' hit' => h it' (List.mem_cons_of_mem _ hit'))
    cases it with
    | mk kitName id =>
      simp only at hv hkn'
      subst hv hkn'
      simp only [fixItems, hrest, List.map_cons]

/-- C5: `fixModkits` takes no Spawn Code Mapping at all — its effect is
independent of it by construction.  On every kit item carrying a
`kitName` and a readable `id` value `v`, the kit loop replaces `v` by
`p ++ v`, plain string concatenation of the chosen prefix (first
conjunct, for a whole well-formed item list).  Scenario, at the
`fixModkits` level: prefix "3" on a kit item with id "42" yields "342"
(second conjunct), and re-applying to the written result yields "3342"
(third conjunct). -/
theorem C5_modkit_prefix_concat (p : String) :
    (∀ (items : List KitItem),
      (∀ it ∈ items, it.kitName ≠ none ∧ ∃ v, it.id = IdField.value v) →
      fixItems p items
        = (items.map (fun it =>
            match it.id with
            | IdField.value v => ⟨it.kitName, IdField.value (p ++ v)⟩
            | _ => it), false))
    ∧ fixModkits [⟨"carcols.meta", some [⟨some [⟨some "kit0", IdField.value "42"⟩]⟩]⟩] "3"
        = [⟨"carcols.meta", some [⟨some [⟨some "kit0", IdField.value "342"⟩]⟩]⟩]
    ∧ fixModkits [⟨"carcols.meta", some [⟨some [⟨some "kit0", IdField.value "342"⟩]⟩]⟩] "3"
        = [⟨"carcols.meta", some [⟨some [⟨some "kit0", IdField.value "3342"⟩]⟩]⟩] := by
  refine ⟨fixItems_wellformed p, by decide, by decide⟩

theorem C5_modkit_prefix_concat_witness :
    (∀ it ∈ [(⟨some "kit0", IdField.value "7"⟩ : KitItem)],
      it.kitName ≠ none ∧ ∃ v, it.id = IdField.value v)
    ∧ fixItems "3" [⟨some "kit0", IdField.value "7"⟩]
        = ([⟨some "kit0", IdField.value "37"⟩], false) := by
  refine ⟨?_, ?_⟩
  · intro it hit
    simp only [List.mem_singleton] at hit
    subst hit
    exact ⟨by simp, "7", rfl⟩
  · have h := (C5_modkit_prefix_concat "3").1 [⟨some "kit0", IdField.value "7"⟩]
      (by intro it hit
          simp only [List.mem_singleton] at hit
          subst hit
          exact ⟨by simp, "7", rfl⟩)
    simpa using h

theorem updateVehDocs_err (codes : List (String × String))
    (vdata : List (String × TemplateData)) (bdata : List (String × String)) :
    ∀ (docs : List VehDoc) (d : VehDoc), d ∈ docs → d.items = none →
      (updateVehDocs codes vdata bdata docs).2 ≠ none := by
  intro docs
  induction docs with
  | nil => intro d hd; simp at hd
  | cons d₀ rest ih =>
    intro d hd hnone
    rcases List.mem_cons.mp hd with rfl | hmem
    · simp only [updateVehDocs, hnone]
      simp
    · cases h₀ : d₀.items with
      | none =>
        simp only [updateVehDocs, h₀]
        simp
      | some items =>
        cases hmap : items.mapM (rewriteVehItem codes vdata bdata) with
        | error e =>
          simp only [updateVehDocs, h₀, hmap]
          simp
        | ok items' =>
          simp only [updateVehDocs, h₀, hmap]
          exact ih d hmem hnone

theorem updateVarDocs_err (codes : List (String × String)) :
    ∀ (docs : List VarDoc) (d : VarDoc), d ∈ docs → d.items = none →
      (updateVarDocs codes docs).2 ≠ none := by
  intro docs
  induction docs with
  | nil => intro d hd; simp at hd
  | cons d₀ rest ih =>
    intro d hd hnone
    rcases List.mem_cons.mp hd with rfl | hmem
    · simp only [updateVarDocs, hnone]
      simp
    · cases h₀ : d₀.items with
      | none =>
        simp only [updateVarDocs, h₀]
        simp
      | some items =>
        simp only [updateVarDocs, h₀]
        exact ih d hmem hnone

theorem fixModkits_paths (pfx : String) :
    ∀ (docs : List CarcolDoc),
      (fixModkits docs pfx).map (fun d => d.path) = docs.map (fun d => d.path) := by
  intro docs
  induction docs with
  | nil => rfl
  | cons d rest ih =>
    simp only [fixModkits, List.map_cons, ih]

/-- C6: a structural mismatch (the expected nested item list absent) in a
vehicles.meta or carvariations.meta document makes `updateMetaFiles`
propagate the thrown error — the run halts with that error (first two
conjuncts) — while `fixModkits` never halts: it catches errors
per-document and still writes every document, whatever their contents
(third conjunct: one written document per input document, same paths, for
every input). -/
theorem C6_structural_mismatch_fatality (vehArr : List VehDoc) (carArr : List VarDoc)
    (codes : List (String × String)) (vdata : List (String × TemplateData))
    (bdata : List (String × String)) (ccArr : List CarcolDoc) (pfx : String) :
    (∀ d ∈ vehArr, d.items = none →
      (updateMetaFiles vehArr carArr codes vdata bdata).2.2 ≠ none)
    ∧ (∀ d ∈ carArr, d.items = none →
      (updateMetaFiles vehArr carArr codes vdata bdata).2.2 ≠ none)
    ∧ (fixModkits ccArr pfx).map (fun d => d.path) = ccArr.map (fun d => d.path) := by
  refine ⟨?_, ?_, fixModkits_paths pfx ccArr⟩
  · intro d hd hnone
    unfold updateMetaFiles
    cases hv : (updateVehDocs codes vdata bdata vehArr).2 with
    | none => exact absurd hv (updateVehDocs_err codes vdata bdata vehArr d hd hnone)
    | some err => simp [hv]
  · intro d hd hnone
    unfold updateMetaFiles
    cases hv : (updateVehDocs codes vdata bdata vehArr).2 with
    | none =>
      simp only [hv]
      exact updateVarDocs_err codes carArr d hd hnone
    | some err => simp [hv]

theorem C6_structural_mismatch_fatality_witness :
    ((⟨"a/vehicles.meta", none⟩ : VehDoc) ∈ [(⟨"a/vehicles.meta", none⟩ : VehDoc)]
      ∧ (⟨"a/vehicles.meta", none⟩ : VehDoc).items = none)
    ∧ (updateMetaFiles [⟨"a/vehicles.meta", none⟩] [] [] [] []).2.2 ≠ none := by
  refine ⟨⟨List.mem_singleton.mpr rfl, rfl⟩, ?_⟩
  exact (C6_structural_mismatch_fatality [⟨"a/vehicles.meta", none⟩] [] [] [] [] [] "1").1
    ⟨"a/vehicles.meta", none⟩ (List.mem_singleton.mpr rfl) rfl

/-- C10: when the kit loop throws partway (here: the second item's id is
unreadable — `item.id[0]["$"]` fails), `fixModkits` does not restore the
document: the first item keeps its freshly prefixed value, the malformed
item and every item after it stay untouched (the loop aborted there), and
the partially modified document is still written back; documents after it
are still processed.  No state-unchanged-on-error atomicity. -/
theorem C10_no_rollback_on_caught_error (p v kn kn' docPath : String)
    (rest : List KitItem) (more : List CarcolDoc) :
    fixModkits (⟨docPath, some [⟨some (⟨some kn, IdField.value v⟩
        :: ⟨some kn', IdField.malformed⟩ :: rest)⟩]⟩ :: more) p
      = ⟨docPath, some [⟨some (⟨some kn, IdField.value (p ++ v)⟩
        :: ⟨some kn', IdField.malformed⟩ :: rest)⟩]⟩ :: fixModkits more p := by
  simp [fixModkits, fixKits, fixItems]

/-- C7 counterexample: a run whose manifest loads fine but whose only
vehicles.meta document is structurally malformed rejects inside
`updateMetaFiles`; the rejection is handled by
`main().catch((err) => console.error(...))`, so the process logs the
error and then exits NORMALLY with exit code 0 (no completion message) —
against the claim that any uncaught failure beyond manifest loading
leaves the process in a non-zero, failed state. -/
theorem C7_counterexample :
    runProcess ⟨.ok ⟨[], []⟩, .onlyMetaFiles, "1", [], [⟨"m/vehicles.meta", none⟩],
        [], []⟩
      = ⟨0, true, false⟩ := by
  rfl

/-- C7 amended: a manifest load failure terminates the process immediately
with exit code 1 (first conjunct).  Any other uncaught runtime failure is
caught by the top-level `main().catch`: the error is logged, the
completion message is not printed, but the process still exits with code
0 — error-reported, yet a normal exit (second conjunct).  Only a
failure-free run logs the completion message, also exiting 0 (third
conjunct). -/
theorem C7_amended (w : World) :
    (∀ e, w.buildYaml = .error e → runProcess w = ⟨1, false, false⟩)
    ∧ (∀ m err, w.buildYaml = .ok m → mainBody w m = some err →
        runProcess w = ⟨0, true, false⟩)
    ∧ (∀ m, w.buildYaml = .ok m → mainBody w m = none →
        runProcess w = ⟨0, false, true⟩) := by
  refine ⟨?_, ?_, ?_⟩
  · intro e he
    simp [runProcess, loadYaml, he]
  · intro m err hok hmb
    simp [runProcess, loadYaml, hok, hmb]
  · intro m hok hmb
    simp [runProcess, loadYaml, hok, hmb]

theorem C7_amended_witness :
    runProcess ⟨.error "ENOENT", .onlyUlc, "1", [], [], [], []⟩ = ⟨1, false, false⟩
    ∧ runProcess ⟨.ok ⟨[], []⟩, .onlyMetaFiles, "1", [], [⟨"m/vehicles.meta", none⟩],
        [], []⟩ = ⟨0, true, false⟩
    ∧ runProcess ⟨.ok ⟨[], []⟩, .onlySpawnCodes, "1", [], [], [], []⟩
        = ⟨0, false, true⟩ :=
  ⟨(C7_amended ⟨.error "ENOENT", .onlyUlc, "1", [], [], [], []⟩).1 "ENOENT" rfl,
   (C7_amended ⟨.ok ⟨[], []⟩, .onlyMetaFiles, "1", [], [⟨"m/vehicles.meta", none⟩],
     [], []⟩).2.1 ⟨[], []⟩ "TypeError: structural mismatch in vehicles.meta" rfl rfl,
   (C7_amended ⟨.ok ⟨[], []⟩, .onlySpawnCodes, "1", [], [], [], []⟩).2.2 ⟨[], []⟩
     rfl rfl⟩

/-- C8 counterexample: the idempotence claim fails when a generated spawn
code coincides with another vehicle's name.  The manifest
`{a1: {code: b#}, b: {code: a#}}` generates the mapping
`{a1 ↦ b1, b ↦ a1}` (first conjunct); on the file set
`{a1.yft, b.yft}` the first run renames `a1.yft → b1.yft` and then
`b.yft → a1.yft`, so the old name `a1.yft` exists again afterwards
(second conjunct), and a second run performs 1 rename, not 0 (third
conjunct). -/
theorem C8_counterexample :
    autoIncrementSpawnCodes [("a1", "b#"), ("b", "a#")] = [("a1", "b1"), ("b", "a1")]
    ∧ "a1.yft" ∈ (renameVehicleFiles [("a1", "b1"), ("b", "a1")]
        ["a1.yft", "b.yft"]).1
    ∧ (renameVehicleFiles [("a1", "b1"), ("b", "a1")]
        (renameVehicleFiles [("a1", "b1"), ("b", "a1")] ["a1.yft", "b.yft"]).1).2
      = 1 := by
  exact ⟨by decide, by decide, by decide⟩

/-- C8 amended: on a duplicate-free file set, the File Renamer is
idempotent provided no spawn code combined with a recognized suffix
equals a vehicle identifier combined with a recognized suffix (in
particular, no spawn code equals another mapping key, as happens in the
counterexample): then after the first run no "original identifier plus
recognized suffix" file remains, and the second run performs zero renames
and leaves the file set unchanged. -/
theorem C8_amended (codes : List (String × String)) (fs : List String)
    (hnd : fs.Nodup)
    (hsep : ∀ q₁ ∈ codes, ∀ q₂ ∈ codes, ∀ e₁ ∈ patterns, ∀ e₂ ∈ patterns,
      q₂.2 ++ e₂ ≠ q₁.1 ++ e₁) :
    renameVehicleFiles codes (renameVehicleFiles codes fs).1
      = ((renameVehicleFiles codes fs).1, 0) := by
  apply renameVehicleFiles_zero
  intro q hq e he
  exact renameVehicleFiles_removes codes fs hnd hsep q hq e he

theorem C8_amended_witness :
    (["car1.yft", "car1.ytd", "x.yft"] : List String).Nodup
    ∧ (∀ q₁ ∈ [("car1", "ab1")], ∀ q₂ ∈ [("car1", "ab1")],
        ∀ e₁ ∈ patterns, ∀ e₂ ∈ patterns, q₂.2 ++ e₂ ≠ q₁.1 ++ e₁)
    ∧ renameVehicleFiles [("car1", "ab1")]
        (renameVehicleFiles [("car1", "ab1")] ["car1.yft", "car1.ytd", "x.yft"]).1
      = ((renameVehicleFiles [("car1", "ab1")] ["car1.yft", "car1.ytd", "x.yft"]).1, 0) :=
  ⟨by decide, by decide,
   C8_amended [("car1", "ab1")] ["car1.yft", "car1.ytd", "x.yft"]
     (by decide) (by decide)⟩

/-- C9: an item that matches no entry of the Spawn Code Mapping is passed
through with every field — identifier, texture name, game name, handling
reference, audio reference — unchanged.  For the current script a
non-match means the lowercased identifier misses every mapping key (its
matching is the case-insensitive policy of the spec); for the `build.mjs`
variant it means the identifier itself misses every key.  All four
rewriters (both scripts × both metadata shapes) are covered. -/
theorem C9_non_match_passthrough (codes : List (String × String))
    (vdata : List (String × TemplateData)) (bdata : List (String × String))
    (item : VehItem) (vitem : VarItem) :
    (codes.lookup (jsToLower item.modelName) = none →
      rewriteVehItem codes vdata bdata item = .ok item)
    ∧ (codes.lookup (jsToLower vitem.modelName) = none →
      rewriteVarItem codes vitem = vitem)
    ∧ (codes.lookup item.modelName = none →
      rewriteVehItemMjs codes vdata bdata item = .ok item)
    ∧ (codes.lookup vitem.modelName = none →
      rewriteVarItemMjs codes vitem = vitem) := by
  refine ⟨?_, ?_, ?_, ?_⟩
  · intro h
    unfold rewriteVehItem
    simp only [h]
  · intro h
    unfold rewriteVarItem
    simp only [h]
  · intro h
    unfold rewriteVehItemMjs
    simp only [h]
  · intro h
    unfold rewriteVarItemMjs
    simp only [h]

theorem C9_non_match_passthrough_witness :
    ([("oldcar", "ab1")] : List (String × String)).lookup
        (jsToLower "unrelated") = none
    ∧ rewriteVehItem [("oldcar", "ab1")] [] [] ⟨"unrelated", "t", "g", "h", "a"⟩
        = .ok ⟨"unrelated", "t", "g", "h", "a"⟩
    ∧ rewriteVarItemMjs [("oldcar", "ab1")] ⟨"unrelated"⟩ = ⟨"unrelated"⟩ :=
  ⟨by decide,
   (C9_non_match_passthrough [("oldcar", "ab1")] [] []
     ⟨"unrelated", "t", "g", "h", "a"⟩ ⟨"unrelated"⟩).1 (by decide),
   (C9_non_match_passthrough [("oldcar", "ab1")] [] []
     ⟨"unrelated", "t", "g", "h", "a"⟩ ⟨"unrelated"⟩).2.2.2 (by decide)⟩
